import Mathlib

/-!
Shallow embedding of the inspector-protocol codec and dispatch subsystem of
this repository (`src/deno_inspector/string_util.cc` and
`src/crdtp_binding.cc`), together with proofs about the embedded functions.

Conventions of the embedding:
* C++ byte buffers (`std::vector<uint8_t>`, `Binary`) are `List Nat`, with
  the invariant "every element is `< 256`" carried as a hypothesis where it
  matters.
* C++ strings are `List Char` when they are treated as text (base64), and
  `List Nat` of code units / bytes where the source manipulates raw units.
* Machine integers are `Nat`; a `uint32_t` overflow point in the source is
  made explicit with `% 4294967296` (2^32); shifts `<< k` / `>> k` are
  `* 2^k` / `/ 2^k`, and masks `& 0x3F` / `& 0xFF` are `% 64` / `% 256`.
-/

namespace DenoInspector

/-- The base64 alphabet `kBase64Chars` from `string_util.cc`:
`"ABCDEFGHIJKLMNOPQRSTUVWXYZabcdefghijklmnopqrstuvwxyz0123456789+/"`. -/
def kBase64Chars : List Char :=
  "ABCDEFGHIJKLMNOPQRSTUVWXYZabcdefghijklmnopqrstuvwxyz0123456789+/".toList

/-- Indexing into `kBase64Chars`; all indices used by the encoder are `< 64`. -/
def base64Char (idx : Nat) : Char := kBase64Chars.getD idx 'A'

/-- `Binary::toBase64` from `string_util.cc`. Each loop iteration reads up to
three bytes into the `uint32_t` accumulator
`n = data[i] << 16 | data[i+1] << 8 | data[i+2]` and emits four characters,
substituting `'='` for the third or fourth character when fewer than two or
three bytes remain. -/
def toBase64 : List Nat → List Char
  | [] => []
  | [a] =>
      let n := a * 65536 % 4294967296
      [base64Char (n / 262144 % 64), base64Char (n / 4096 % 64), '=', '=']
  | [a, b] =>
      let n := (a * 65536 + b * 256) % 4294967296
      [base64Char (n / 262144 % 64), base64Char (n / 4096 % 64),
       base64Char (n / 64 % 64), '=']
  | a :: b :: c :: rest =>
      let n := (a * 65536 + b * 256 + c) % 4294967296
      base64Char (n / 262144 % 64) :: base64Char (n / 4096 % 64) ::
        base64Char (n / 64 % 64) :: base64Char (n % 64) :: toBase64 rest

/-- The 256-entry decode table `kBase64DecodeTable` from `string_util.cc`;
255 marks a byte outside the base64 alphabet. -/
def kBase64DecodeTable : List Nat :=
  [255, 255, 255, 255, 255, 255, 255, 255, 255, 255, 255, 255, 255, 255, 255, 255,
   255, 255, 255, 255, 255, 255, 255, 255, 255, 255, 255, 255, 255, 255, 255, 255,
   255, 255, 255, 255, 255, 255, 255, 255, 255, 255, 255,  62, 255, 255, 255,  63,
    52,  53,  54,  55,  56,  57,  58,  59,  60,  61, 255, 255, 255, 255, 255, 255,
   255,   0,   1,   2,   3,   4,   5,   6,   7,   8,   9,  10,  11,  12,  13,  14,
    15,  16,  17,  18,  19,  20,  21,  22,  23,  24,  25, 255, 255, 255, 255, 255,
   255,  26,  27,  28,  29,  30,  31,  32,  33,  34,  35,  36,  37,  38,  39,  40,
    41,  42,  43,  44,  45,  46,  47,  48,  49,  50,  51, 255, 255, 255, 255, 255,
   255, 255, 255, 255, 255, 255, 255, 255, 255, 255, 255, 255, 255, 255, 255, 255,
   255, 255, 255, 255, 255, 255, 255, 255, 255, 255, 255, 255, 255, 255, 255, 255,
   255, 255, 255, 255, 255, 255, 255, 255, 255, 255, 255, 255, 255, 255, 255, 255,
   255, 255, 255, 255, 255, 255, 255, 255, 255, 255, 255, 255, 255, 255, 255, 255,
   255, 255, 255, 255, 255, 255, 255, 255, 255, 255, 255, 255, 255, 255, 255, 255,
   255, 255, 255, 255, 255, 255, 255, 255, 255, 255, 255, 255, 255, 255, 255, 255,
   255, 255, 255, 255, 255, 255, 255, 255, 255, 255, 255, 255, 255, 255, 255, 255,
   255, 255, 255, 255, 255, 255, 255, 255, 255, 255, 255, 255, 255, 255, 255, 255]

/-- The table lookup `kBase64DecodeTable[static_cast<uint8_t>(c)]`:
the `char` is reinterpreted as a byte, hence `c.toNat % 256`. -/
def decodeTableLookup (c : Char) : Nat :=
  kBase64DecodeTable.getD (c.toNat % 256) 255

/-- The loop of `Binary::fromBase64`, with the loop state made explicit:
`buffer` is the `uint32_t` bit accumulator, `bits` is `bits_collected`, and
`acc` is the byte vector built so far. Hitting `'='` breaks out of the loop
(returning what was accumulated with `success = true`); a byte outside the
alphabet returns `(false, [])` — the empty `Binary` — discarding `acc`. -/
def fromBase64Aux : List Char → Nat → Nat → List Nat → Bool × List Nat
  | [], _, _, acc => (true, acc)
  | c :: cs, buffer, bits, acc =>
      if c = '=' then (true, acc)
      else
        let val := decodeTableLookup c
        if val = 255 then (false, [])
        else
          let buffer' := (buffer * 64 + val) % 4294967296
          let bits' := bits + 6
          if 8 ≤ bits' then
            fromBase64Aux cs buffer' (bits' - 8) (acc ++ [buffer' / 2 ^ (bits' - 8) % 256])
          else
            fromBase64Aux cs buffer' bits' acc

/-- `Binary::fromBase64` from `string_util.cc`: returns the pair
`(success, bytes)` (the C++ out-parameter `*success` and the returned
`Binary`'s byte buffer). -/
def fromBase64 (base64 : List Char) : Bool × List Nat :=
  fromBase64Aux base64 0 0 []

/-- Decoding inverts encoding on each 6-bit index: looking up the character
the encoder emits for `v < 64` in the decode table gives back `v`. -/
lemma decodeTableLookup_base64Char_fin :
    ∀ v : Fin 64, decodeTableLookup (base64Char v.val) = v.val := by decide

lemma decodeTableLookup_base64Char {v : Nat} (h : v < 64) :
    decodeTableLookup (base64Char v) = v :=
  decodeTableLookup_base64Char_fin ⟨v, h⟩

/-- No alphabet character is the padding character. -/
lemma base64Char_ne_pad_fin : ∀ v : Fin 64, base64Char v.val ≠ '=' := by decide

lemma base64Char_ne_pad {v : Nat} (h : v < 64) : base64Char v ≠ '=' :=
  base64Char_ne_pad_fin ⟨v, h⟩

lemma decodeTableLookup_base64Char_ne {v : Nat} (h : v < 64) :
    decodeTableLookup (base64Char v) ≠ 255 := by
  rw [decodeTableLookup_base64Char h]; omega

/-- One iteration of the decode loop on a non-padding alphabet byte. -/
lemma fromBase64Aux_step (c : Char) (cs : List Char) (B bits : Nat) (acc : List Nat)
    (hc : c ≠ '=') (hv : decodeTableLookup c ≠ 255) :
    fromBase64Aux (c :: cs) B bits acc =
      if 8 ≤ bits + 6 then
        fromBase64Aux cs ((B * 64 + decodeTableLookup c) % 4294967296) (bits + 6 - 8)
          (acc ++ [(B * 64 + decodeTableLookup c) % 4294967296 / 2 ^ (bits + 6 - 8) % 256])
      else
        fromBase64Aux cs ((B * 64 + decodeTableLookup c) % 4294967296) (bits + 6) acc := by
  simp only [fromBase64Aux, if_neg hc, if_neg hv]

/-- Decoding a full four-character group emitted for bytes `a b c` appends
exactly `[a, b, c]` and returns to a 0-bit carry state. -/
lemma fromBase64Aux_chunk3 (a b c : Nat) (ha : a < 256) (hb : b < 256) (hc : c < 256)
    (B : Nat) (acc : List Nat) (rest : List Char) :
    ∃ B2,
      fromBase64Aux
        (base64Char ((a * 65536 + b * 256 + c) % 4294967296 / 262144 % 64) ::
         base64Char ((a * 65536 + b * 256 + c) % 4294967296 / 4096 % 64) ::
         base64Char ((a * 65536 + b * 256 + c) % 4294967296 / 64 % 64) ::
         base64Char ((a * 65536 + b * 256 + c) % 4294967296 % 64) :: rest) B 0 acc =
      fromBase64Aux rest B2 0 (acc ++ [a, b, c]) := by
  have hm : (a * 65536 + b * 256 + c) % 4294967296 = a * 65536 + b * 256 + c :=
    Nat.mod_eq_of_lt (by omega)
  rw [hm]
  have h64 : ∀ x : Nat, x % 64 < 64 := fun x => Nat.mod_lt _ (by norm_num)
  rw [fromBase64Aux_step _ _ _ _ _ (base64Char_ne_pad (h64 _))
        (decodeTableLookup_base64Char_ne (h64 _)),
      decodeTableLookup_base64Char (h64 _)]
  norm_num
  rw [fromBase64Aux_step _ _ _ _ _ (base64Char_ne_pad (h64 _))
        (decodeTableLookup_base64Char_ne (h64 _)),
      decodeTableLookup_base64Char (h64 _)]
  norm_num
  rw [fromBase64Aux_step _ _ _ _ _ (base64Char_ne_pad (h64 _))
        (decodeTableLookup_base64Char_ne (h64 _)),
      decodeTableLookup_base64Char (h64 _)]
  norm_num
  rw [fromBase64Aux_step _ _ _ _ _ (base64Char_ne_pad (h64 _))
        (decodeTableLookup_base64Char_ne (h64 _)),
      decodeTableLookup_base64Char (h64 _)]
  norm_num
  have h1 : ((B * 64 + (a * 65536 + b * 256 + c) / 262144 % 64) % 4294967296 * 64 +
      (a * 65536 + b * 256 + c) / 4096 % 64) % 4294967296 / 16 % 256 = a := by omega
  have h2 : (((B * 64 + (a * 65536 + b * 256 + c) / 262144 % 64) % 4294967296 * 64 +
      (a * 65536 + b * 256 + c) / 4096 % 64) % 4294967296 * 64 +
      (a * 65536 + b * 256 + c) / 64 % 64) % 4294967296 / 4 % 256 = b := by omega
  have h3 : ((((B * 64 + (a * 65536 + b * 256 + c) / 262144 % 64) % 4294967296 * 64 +
      (a * 65536 + b * 256 + c) / 4096 % 64) % 4294967296 * 64 +
      (a * 65536 + b * 256 + c) / 64 % 64) % 4294967296 * 64 +
      (a * 65536 + b * 256 + c) % 64) % 256 = c := by omega
  rw [h1, h2, h3]
  exact ⟨_, rfl⟩

/-- Decoding the terminal group emitted for a single byte `a` (two alphabet
characters followed by `"=="`) appends exactly `[a]` and stops at the padding. -/
lemma fromBase64Aux_chunk1 (a : Nat) (ha : a < 256) (B : Nat) (acc : List Nat) :
    fromBase64Aux (toBase64 [a]) B 0 acc = (true, acc ++ [a]) := by
  have hm : a * 65536 % 4294967296 = a * 65536 := Nat.mod_eq_of_lt (by omega)
  have h64 : ∀ x : Nat, x % 64 < 64 := fun x => Nat.mod_lt _ (by norm_num)
  simp only [toBase64, hm]
  rw [fromBase64Aux_step _ _ _ _ _ (base64Char_ne_pad (h64 _))
        (decodeTableLookup_base64Char_ne (h64 _)),
      decodeTableLookup_base64Char (h64 _)]
  norm_num
  rw [fromBase64Aux_step _ _ _ _ _ (base64Char_ne_pad (h64 _))
        (decodeTableLookup_base64Char_ne (h64 _)),
      decodeTableLookup_base64Char (h64 _)]
  norm_num
  rw [fromBase64Aux]
  norm_num
  omega

/-- Decoding the terminal group emitted for two bytes `a b` (three alphabet
characters followed by `"="`) appends exactly `[a, b]` and stops at the padding. -/
lemma fromBase64Aux_chunk2 (a b : Nat) (ha : a < 256) (hb : b < 256) (B : Nat)
    (acc : List Nat) :
    fromBase64Aux (toBase64 [a, b]) B 0 acc = (true, acc ++ [a, b]) := by
  have hm : (a * 65536 + b * 256) % 4294967296 = a * 65536 + b * 256 :=
    Nat.mod_eq_of_lt (by omega)
  have h64 : ∀ x : Nat, x % 64 < 64 := fun x => Nat.mod_lt _ (by norm_num)
  simp only [toBase64, hm]
  rw [fromBase64Aux_step _ _ _ _ _ (base64Char_ne_pad (h64 _))
        (decodeTableLookup_base64Char_ne (h64 _)),
      decodeTableLookup_base64Char (h64 _)]
  norm_num
  rw [fromBase64Aux_step _ _ _ _ _ (base64Char_ne_pad (h64 _))
        (decodeTableLookup_base64Char_ne (h64 _)),
      decodeTableLookup_base64Char (h64 _)]
  norm_num
  rw [fromBase64Aux_step _ _ _ _ _ (base64Char_ne_pad (h64 _))
        (decodeTableLookup_base64Char_ne (h64 _)),
      decodeTableLookup_base64Char (h64 _)]
  norm_num
  rw [fromBase64Aux]
  norm_num
  constructor
  · omega
  · omega

/-- Decoding the full encoder output from any starting buffer with an empty
bit carry appends exactly the encoded bytes and reports success. -/
lemma fromBase64Aux_toBase64 : ∀ bytes : List Nat, (∀ x ∈ bytes, x < 256) →
    ∀ B acc, fromBase64Aux (toBase64 bytes) B 0 acc = (true, acc ++ bytes) := by
  intro bytes
  induction bytes using toBase64.induct with
  | case1 =>
      intro _ B acc
      simp [toBase64, fromBase64Aux]
  | case2 a =>
      intro h B acc
      exact fromBase64Aux_chunk1 a (h a (by simp)) B acc
  | case3 a b =>
      intro h B acc
      exact fromBase64Aux_chunk2 a b (h a (by simp)) (h b (by simp)) B acc
  | case4 a b c rest ih =>
      intro h B acc
      simp only [toBase64]
      obtain ⟨B2, heq⟩ := fromBase64Aux_chunk3 a b c (h a (by simp)) (h b (by simp))
        (h c (by simp)) B acc (toBase64 rest)
      rw [heq, ih (fun x hx => h x (by simp [hx])) B2 (acc ++ [a, b, c])]
      simp

/-- A byte outside the base64 alphabet encountered before any padding makes the
whole decode fail with `(false, [])`, whatever the loop state was. -/
lemma fromBase64Aux_invalid : ∀ (pre : List Char) (c : Char) (suf : List Char)
    (B bits : Nat) (acc : List Nat),
    decodeTableLookup c = 255 → c ≠ '=' → '=' ∉ pre →
    fromBase64Aux (pre ++ c :: suf) B bits acc = (false, []) := by
  intro pre
  induction pre with
  | nil =>
      intro c suf B bits acc hc hne _
      simp [fromBase64Aux, hne, hc]
  | cons p pre ih =>
      intro c suf B bits acc hc hne hmem
      have hp : p ≠ '=' := fun h => hmem (by simp [h])
      by_cases hv : decodeTableLookup p = 255
      · simp [fromBase64Aux, hp, hv]
      · rw [List.cons_append, fromBase64Aux_step p _ _ _ _ hp hv]
        split
        · exact ih c suf _ _ _ hc hne fun h => hmem (by simp [h])
        · exact ih c suf _ _ _ hc hne fun h => hmem (by simp [h])

/-- Every byte of the input that lies in the base64 alphabet is consumed
without failing, so if everything before the first `'='` is in the alphabet
the decode reports success. -/
lemma fromBase64Aux_valid_prefix : ∀ (s : List Char) (B bits : Nat) (acc : List Nat),
    (∀ c ∈ s.takeWhile (· != '='), decodeTableLookup c ≠ 255) →
    (fromBase64Aux s B bits acc).1 = true := by
  intro s
  induction s with
  | nil => intro B bits acc _; rfl
  | cons c cs ih =>
      intro B bits acc h
      by_cases hc : c = '='
      · simp [fromBase64Aux, hc]
      · have hstep : (c :: cs).takeWhile (· != '=') = c :: cs.takeWhile (· != '=') := by
          simp [List.takeWhile_cons, hc]
        have hv : decodeTableLookup c ≠ 255 := h c (by rw [hstep]; exact List.mem_cons_self c _)
        rw [fromBase64Aux_step c cs B bits acc hc hv]
        have htail : ∀ x ∈ cs.takeWhile (· != '='), decodeTableLookup x ≠ 255 := fun x hx =>
          h x (by rw [hstep]; exact List.mem_cons_of_mem c hx)
        split
        · exact ih _ _ _ htail
        · exact ih _ _ _ htail

end DenoInspector

namespace DenoInspector

/-- C1: for every byte buffer `b`, `Binary::fromBase64` applied to
`Binary::toBase64 b` sets the success flag and returns exactly the bytes `b`. -/
theorem base64_roundtrip (b : List Nat) (hb : ∀ x ∈ b, x < 256) :
    fromBase64 (toBase64 b) = (true, b) := by
  simpa [fromBase64] using fromBase64Aux_toBase64 b hb 0 []

/-- Witness for C1 at the concrete buffer `[0, 1, 77, 128, 255]`. -/
theorem base64_roundtrip_witness :
    fromBase64 (toBase64 [0, 1, 77, 128, 255]) = (true, [0, 1, 77, 128, 255]) :=
  base64_roundtrip [0, 1, 77, 128, 255] (by decide)

/-- C2: a character outside the base64 alphabet (decode-table value 255 and
not `'='`) occurring before any `'='` makes `Binary::fromBase64` report
`success = false` with an empty `Binary`; in particular
`"not-valid-base64!!!"` fails this way. -/
theorem fromBase64_invalid_char :
    (∀ (pre : List Char) (c : Char) (suf : List Char),
        decodeTableLookup c = 255 → c ≠ '=' → '=' ∉ pre →
        fromBase64 (pre ++ c :: suf) = (false, [])) ∧
    fromBase64 "not-valid-base64!!!".toList = (false, []) :=
  ⟨fun pre c suf hc hne hmem => fromBase64Aux_invalid pre c suf 0 0 [] hc hne hmem,
   by decide⟩

/-- Witness for C2 at the concrete input `"ab!c"`. -/
theorem fromBase64_invalid_char_witness :
    fromBase64 (['a', 'b'] ++ '!' :: ['c']) = (false, []) :=
  fromBase64_invalid_char.1 ['a', 'b'] '!' ['c'] (by decide) (by decide) (by decide)

/-- C3 counterexample: `Binary::fromBase64` does not fail on invalid padding.
`"A="` has a `'='` where padding is not permitted (a base64 quantum needs at
least two alphabet characters before padding) and `"A"` has a non-quantum
length, yet both decode with `success = true` (and no output bytes). -/
theorem fromBase64_accepts_bad_padding :
    (fromBase64 "A=".toList).1 = true ∧ (fromBase64 "A".toList).1 = true ∧
    (fromBase64 "=".toList).1 = true := by decide

/-- C3 amended: `Binary::fromBase64` fails only on a byte outside the base64
alphabet occurring before the first `'='`; whenever every character before the
first `'='` is in the alphabet — whatever the padding placement or input
length — it reports `success = true`, silently discarding any leftover bits. -/
theorem fromBase64_success_on_valid_prefix (s : List Char)
    (h : ∀ c ∈ s.takeWhile (· != '='), decodeTableLookup c ≠ 255) :
    (fromBase64 s).1 = true :=
  fromBase64Aux_valid_prefix s 0 0 [] h

/-- Witness for the amended C3 at the concrete input `"QUJD=="`. -/
theorem fromBase64_success_on_valid_prefix_witness :
    (fromBase64 "QUJD==".toList).1 = true :=
  fromBase64_success_on_valid_prefix "QUJD==".toList (by decide)

/-- The UTF-8 encoding step of `StringUtil::fromUTF16`: the four-way branch on
`code_point` emitting 1 to 4 bytes. Shifts `>> k` are `/ 2^k`, masks `& 0x3F`
are `% 64`, bit-or keeps `|||`, and the `static_cast<char>` on every pushed
byte is the explicit `% 256`. -/
def encodeUTF8 (cp : Nat) : List Nat :=
  if cp < 0x80 then [cp % 256]
  else if cp < 0x800 then [(0xC0 ||| cp / 64) % 256, (0x80 ||| cp % 64) % 256]
  else if cp < 0x10000 then
    [(0xE0 ||| cp / 4096) % 256, (0x80 ||| cp / 64 % 64) % 256, (0x80 ||| cp % 64) % 256]
  else
    [(0xF0 ||| cp / 262144) % 256, (0x80 ||| cp / 4096 % 64) % 256,
     (0x80 ||| cp / 64 % 64) % 256, (0x80 ||| cp % 64) % 256]

/-- `StringUtil::fromUTF16` from `string_util.cc`: scans the code units left
to right; a unit in the high-surrogate range `0xD800`–`0xDBFF` that is not the
last unit and is followed by a unit in the low-surrogate range
`0xDC00`–`0xDFFF` is composed with it into
`0x10000 + ((hi - 0xD800) << 10) + (lo - 0xDC00)` (consuming both units);
every other unit is UTF-8-encoded as its own value. -/
def fromUTF16 : List Nat → List Nat
  | [] => []
  | [u] => encodeUTF8 u
  | u :: low :: rest2 =>
      if 0xD800 ≤ u ∧ u ≤ 0xDBFF ∧ 0xDC00 ≤ low ∧ low ≤ 0xDFFF then
        encodeUTF8 (0x10000 + (u - 0xD800) * 1024 + (low - 0xDC00)) ++ fromUTF16 rest2
      else
        encodeUTF8 u ++ fromUTF16 (low :: rest2)

example : fromUTF16 [0xD83D, 0xDE00] = [0xF0, 0x9F, 0x98, 0x80] := by decide
example : fromUTF16 [0x41, 0xD800] = [0x41, 0xED, 0xA0, 0x80] := by decide

/-- Bit-or with `0x80` on a 6-bit value is plain addition. -/
lemma lor128_fin : ∀ x : Fin 64, 128 ||| (x : Nat) = 128 + (x : Nat) := by decide

lemma lor128 (x : Nat) (hx : x < 64) : 128 ||| x = 128 + x := lor128_fin ⟨x, hx⟩

/-- On the surrogate range the encoder takes the three-byte branch, and the
bytes are `0xE0 + (u >> 12)`, `0x80 + ((u >> 6) & 0x3F)`, `0x80 + (u & 0x3F)`. -/
lemma encodeUTF8_surrogate (u : Nat) (h1 : 0xD800 ≤ u) (h2 : u ≤ 0xDFFF) :
    encodeUTF8 u = [224 + u / 4096, 128 + u / 64 % 64, 128 + u % 64] := by
  have hd : u / 4096 = 13 := by omega
  have h64a : u / 64 % 64 < 64 := Nat.mod_lt _ (by norm_num)
  have h64b : u % 64 < 64 := Nat.mod_lt _ (by norm_num)
  simp only [encodeUTF8, if_neg (by omega : ¬u < 0x80), if_neg (by omega : ¬u < 0x800),
    if_pos (by omega : u < 0x10000), hd, lor128 _ h64a, lor128 _ h64b]
  have e1 : (0xE0 ||| 13) % 256 = 224 + 13 := by decide
  rw [e1]
  exact List.cons_eq_cons.mpr ⟨rfl, List.cons_eq_cons.mpr ⟨by omega,
    List.cons_eq_cons.mpr ⟨by omega, rfl⟩⟩⟩

/-- Unfolding equations for `fromUTF16`, one per pattern of the scan. -/
lemma fromUTF16_nil : fromUTF16 [] = [] := rfl

lemma fromUTF16_one (u : Nat) : fromUTF16 [u] = encodeUTF8 u := rfl

lemma fromUTF16_cons_cons (u low : Nat) (rest2 : List Nat) :
    fromUTF16 (u :: low :: rest2) =
      if 0xD800 ≤ u ∧ u ≤ 0xDBFF ∧ 0xDC00 ≤ low ∧ low ≤ 0xDFFF then
        encodeUTF8 (0x10000 + (u - 0xD800) * 1024 + (low - 0xDC00)) ++ fromUTF16 rest2
      else
        encodeUTF8 u ++ fromUTF16 (low :: rest2) := rfl

/-- A high surrogate immediately followed by a low surrogate is composed,
wherever the pair sits in the input: the scan can never consume the high
surrogate as the second half of an earlier pair, because the high- and
low-surrogate ranges are disjoint. -/
lemma fromUTF16_append_pair (h l : Nat) (hh1 : 0xD800 ≤ h) (hh2 : h ≤ 0xDBFF)
    (hl1 : 0xDC00 ≤ l) (hl2 : l ≤ 0xDFFF) (suf : List Nat) :
    ∀ pre, fromUTF16 (pre ++ h :: l :: suf) =
      fromUTF16 pre ++ encodeUTF8 (0x10000 + (h - 0xD800) * 1024 + (l - 0xDC00)) ++
        fromUTF16 suf := by
  intro pre
  induction pre using fromUTF16.induct with
  | case1 =>
      rw [List.nil_append, fromUTF16_cons_cons, if_pos ⟨hh1, hh2, hl1, hl2⟩,
        fromUTF16_nil, List.nil_append]
  | case2 u =>
      have hne : ¬(0xD800 ≤ u ∧ u ≤ 0xDBFF ∧ 0xDC00 ≤ h ∧ h ≤ 0xDFFF) := by omega
      rw [List.singleton_append, fromUTF16_cons_cons, if_neg hne, fromUTF16_cons_cons,
        if_pos ⟨hh1, hh2, hl1, hl2⟩, fromUTF16_one, List.append_assoc]
  | case3 u low rest2 hcond ih =>
      rw [List.cons_append, List.cons_append, fromUTF16_cons_cons, if_pos hcond, ih,
        fromUTF16_cons_cons, if_pos hcond]
      simp [List.append_assoc]
  | case4 u low rest2 hcond ih =>
      rw [List.cons_append] at ih
      rw [List.cons_append, List.cons_append, fromUTF16_cons_cons, if_neg hcond, ih,
        fromUTF16_cons_cons, if_neg hcond]
      simp [List.append_assoc]

/-- Appending one unit that is not a low surrogate: the scan cannot pair it
with the last unit of the prefix, so it is encoded on its own at the end. -/
lemma fromUTF16_append_single (u : Nat) (hu : ¬(0xDC00 ≤ u ∧ u ≤ 0xDFFF)) :
    ∀ pre, fromUTF16 (pre ++ [u]) = fromUTF16 pre ++ encodeUTF8 u := by
  intro pre
  induction pre using fromUTF16.induct with
  | case1 => rw [List.nil_append, fromUTF16_one, fromUTF16_nil, List.nil_append]
  | case2 v =>
      have hne : ¬(0xD800 ≤ v ∧ v ≤ 0xDBFF ∧ 0xDC00 ≤ u ∧ u ≤ 0xDFFF) := fun hc =>
        hu ⟨hc.2.2.1, hc.2.2.2⟩
      rw [List.singleton_append, fromUTF16_cons_cons, if_neg hne, fromUTF16_one,
        fromUTF16_one]
  | case3 v low rest2 hcond ih =>
      rw [List.cons_append, List.cons_append, fromUTF16_cons_cons, if_pos hcond, ih,
        fromUTF16_cons_cons, if_pos hcond]
      simp [List.append_assoc]
  | case4 v low rest2 hcond ih =>
      rw [List.cons_append] at ih
      rw [List.cons_append, List.cons_append, fromUTF16_cons_cons, if_neg hcond, ih,
        fromUTF16_cons_cons, if_neg hcond]
      simp [List.append_assoc]

/-- `Binary::concat` from `string_util.cc`: computes the total size, then
copies each input buffer in list order into the fresh shared buffer with
sequential `memcpy`s — a left fold appending each buffer to the output. The
inputs are only read (`const&`), never modified. -/
def concat (binaries : List (List Nat)) : List Nat :=
  binaries.foldl (fun out b => out ++ b) []

/-- Folding append from any starting buffer lays the buffers out in order. -/
lemma concat_foldl_eq (binaries : List (List Nat)) :
    ∀ acc, binaries.foldl (fun out b => out ++ b) acc = acc ++ binaries.flatten := by
  induction binaries with
  | nil => intro acc; simp
  | cons b bs ih => intro acc; simp [List.foldl, ih, List.append_assoc]

/-- C4: `StringUtil::fromUTF16` composes a high surrogate (0xD800–0xDBFF)
immediately followed by a low surrogate (0xDC00–0xDFFF) into the single code
point `0x10000 + ((hi - 0xD800) << 10) + (lo - 0xDC00)` before UTF-8
encoding, wherever the pair occurs in the input; in particular on the pair
(0xD83D, 0xDE00) for U+1F600 it produces exactly the bytes F0 9F 98 80. -/
theorem fromUTF16_surrogate_pair :
    (∀ (pre suf : List Nat) (h l : Nat), 0xD800 ≤ h → h ≤ 0xDBFF → 0xDC00 ≤ l →
        l ≤ 0xDFFF →
        fromUTF16 (pre ++ h :: l :: suf) =
          fromUTF16 pre ++
            encodeUTF8 (0x10000 + (h - 0xD800) * 1024 + (l - 0xDC00)) ++
            fromUTF16 suf) ∧
    fromUTF16 [0xD83D, 0xDE00] = [0xF0, 0x9F, 0x98, 0x80] :=
  ⟨fun pre suf h l hh1 hh2 hl1 hl2 =>
      fromUTF16_append_pair h l hh1 hh2 hl1 hl2 suf pre,
   by decide⟩

/-- Witness for C4 with the U+1F600 pair between two ASCII units. -/
theorem fromUTF16_surrogate_pair_witness :
    fromUTF16 ([0x41] ++ 0xD83D :: 0xDE00 :: [0x42]) =
      fromUTF16 [0x41] ++
        encodeUTF8 (0x10000 + (0xD83D - 0xD800) * 1024 + (0xDE00 - 0xDC00)) ++
        fromUTF16 [0x42] :=
  fromUTF16_surrogate_pair.1 [0x41] [0x42] 0xD83D 0xDE00
    (by decide) (by decide) (by decide) (by decide)

/-- C8: a high surrogate that is the last code unit of the input is not
rejected: it is emitted as a lone 16-bit code unit, UTF-8-encoded directly as
the three bytes `0xE0 + (u >> 12)`, `0x80 + ((u >> 6) & 0x3F)`,
`0x80 + (u & 0x3F)` of its own value. -/
theorem fromUTF16_trailing_high (pre : List Nat) (u : Nat)
    (h1 : 0xD800 ≤ u) (h2 : u ≤ 0xDBFF) :
    fromUTF16 (pre ++ [u]) =
      fromUTF16 pre ++ [224 + u / 4096, 128 + u / 64 % 64, 128 + u % 64] := by
  rw [fromUTF16_append_single u (by omega) pre, encodeUTF8_surrogate u h1 (by omega)]

/-- Witness for C8 at the input `[0x41, 0xD800]`. -/
theorem fromUTF16_trailing_high_witness :
    fromUTF16 ([0x41] ++ [0xD800]) =
      fromUTF16 [0x41] ++
        [224 + 0xD800 / 4096, 128 + 0xD800 / 64 % 64, 128 + 0xD800 % 64] :=
  fromUTF16_trailing_high [0x41] 0xD800 (by decide) (by decide)

/-- C9: every unpaired surrogate is treated leniently, not only a trailing
high surrogate: a low surrogate at the scan position (necessarily not consumed
as the second half of a pair) and a high surrogate followed by a
non-low-surrogate unit are each encoded directly as the three UTF-8 bytes of
their own 16-bit value, and the following code unit is processed
independently. -/
theorem fromUTF16_unpaired_surrogates :
    (∀ (l : Nat) (rest : List Nat), 0xDC00 ≤ l → l ≤ 0xDFFF →
        fromUTF16 (l :: rest) =
          [224 + l / 4096, 128 + l / 64 % 64, 128 + l % 64] ++ fromUTF16 rest) ∧
    (∀ (h v : Nat) (rest : List Nat), 0xD800 ≤ h → h ≤ 0xDBFF →
        ¬(0xDC00 ≤ v ∧ v ≤ 0xDFFF) →
        fromUTF16 (h :: v :: rest) =
          [224 + h / 4096, 128 + h / 64 % 64, 128 + h % 64] ++
            fromUTF16 (v :: rest)) := by
  constructor
  · intro l rest hl1 hl2
    match rest with
    | [] =>
        rw [fromUTF16_one, encodeUTF8_surrogate l (by omega) hl2, fromUTF16_nil,
          List.append_nil]
    | r :: rs =>
        have hne : ¬(0xD800 ≤ l ∧ l ≤ 0xDBFF ∧ 0xDC00 ≤ r ∧ r ≤ 0xDFFF) := by omega
        rw [fromUTF16_cons_cons, if_neg hne, encodeUTF8_surrogate l (by omega) hl2]
  · intro h v rest hh1 hh2 hv
    have hne : ¬(0xD800 ≤ h ∧ h ≤ 0xDBFF ∧ 0xDC00 ≤ v ∧ v ≤ 0xDFFF) := fun hc =>
      hv ⟨hc.2.2.1, hc.2.2.2⟩
    rw [fromUTF16_cons_cons, if_neg hne, encodeUTF8_surrogate h hh1 (by omega)]

/-- Witness for C9: a lone low surrogate before an ASCII unit, and a high
surrogate followed by an ASCII unit. -/
theorem fromUTF16_unpaired_surrogates_witness :
    fromUTF16 (0xDC00 :: [0x41]) =
      [224 + 0xDC00 / 4096, 128 + 0xDC00 / 64 % 64, 128 + 0xDC00 % 64] ++
        fromUTF16 [0x41] ∧
    fromUTF16 (0xD800 :: 0x42 :: []) =
      [224 + 0xD800 / 4096, 128 + 0xD800 / 64 % 64, 128 + 0xD800 % 64] ++
        fromUTF16 (0x42 :: []) :=
  ⟨fromUTF16_unpaired_surrogates.1 0xDC00 [0x41] (by decide) (by decide),
   fromUTF16_unpaired_surrogates.2 0xD800 0x42 [] (by decide) (by decide) (by decide)⟩

/-- C10: `Binary::concat` returns a buffer whose size is the sum of the input
sizes and whose bytes are the input buffers laid out in list order (`join`);
the inputs themselves are only read, never modified. -/
theorem concat_size_and_layout (binaries : List (List Nat)) :
    (concat binaries).length = (binaries.map List.length).sum ∧
    concat binaries = binaries.flatten := by
  have hj : concat binaries = binaries.flatten := by
    rw [concat, concat_foldl_eq binaries [], List.nil_append]
  exact ⟨by rw [hj, List.length_flatten], hj⟩

end DenoInspector

namespace Crdtp

/-- Modelled from the spec: the `crdtp::Dispatchable` envelope (V8 third_party
inspector_protocol, not under src/), reduced to the two fields the dispatcher
routes on — the `ok` parse flag and the method-name byte span. -/
structure DispatchableM where
  ok : Bool
  method : List Nat

/-- Modelled from the spec: `crdtp::UberDispatcher` (V8 third_party, not under
src/) owns a method-name → handler registry with at most one handler per exact
name; only the set of registered names matters for routing. -/
structure UberDispatcherM where
  registered : List (List Nat)

/-- The routing result the binding `crdtp__DispatchResult__MethodFound`
exposes. -/
structure DispatchResultM where
  MethodFound : Bool

/-- Modelled from the spec: the `UberDispatcher::Dispatch` state machine of
spec §4.4 — a non-ok dispatchable or an unregistered method yields
`found = false`, a registered method yields `found = true`. Lookup is
exact-match on the method name. The function is total: the routing miss is
reported only through the boolean, never by any exceptional path. -/
def Dispatch (self : UberDispatcherM) (d : DispatchableM) : DispatchResultM :=
  if d.ok = false then ⟨false⟩
  else if d.method ∈ self.registered then ⟨true⟩ else ⟨false⟩

/-- C5: dispatching any dispatchable whose method is not registered — in
particular any dispatchable given to a dispatcher with no registered
methods — returns a result with `MethodFound = false`, and the total
function `Dispatch` reports this only through that boolean. -/
theorem dispatch_method_not_found :
    (∀ (self : UberDispatcherM) (d : DispatchableM), d.method ∉ self.registered →
        (Dispatch self d).MethodFound = false) ∧
    (∀ d : DispatchableM, (Dispatch ⟨[]⟩ d).MethodFound = false) := by
  constructor
  · intro self d hmem
    by_cases hok : d.ok = false
    · simp [Dispatch, hok]
    · simp [Dispatch, hok, hmem]
  · intro d
    by_cases hok : d.ok = false
    · simp [Dispatch, hok]
    · simp [Dispatch, hok]

/-- Witness for C5: the method `"Foo.bar"` (as bytes) against a dispatcher
registering only `"Foo.baz"`, and against the empty dispatcher. -/
theorem dispatch_method_not_found_witness :
    (Dispatch ⟨[[70, 111, 111, 46, 98, 97, 122]]⟩
        ⟨true, [70, 111, 111, 46, 98, 97, 114]⟩).MethodFound = false ∧
    (Dispatch ⟨[]⟩ ⟨true, [70, 111, 111, 46, 98, 97, 114]⟩).MethodFound = false :=
  ⟨dispatch_method_not_found.1 ⟨[[70, 111, 111, 46, 98, 97, 122]]⟩
      ⟨true, [70, 111, 111, 46, 98, 97, 114]⟩ (by decide),
   dispatch_method_not_found.2 ⟨true, [70, 111, 111, 46, 98, 97, 114]⟩⟩

/-- The boundary function `crdtp__json__ConvertJSONToCBOR` from
`crdtp_binding.cc`: it runs the conversion into the output vector and returns
`!cbor_out->empty()`. The underlying `json::ConvertJSONToCBOR` lives in V8's
crdtp library, not under src/, and is abstracted as the parameter `convert`;
modelled from the spec, a structurally invalid JSON input is exactly one with
`convert json = []`. -/
def crdtp__json__ConvertJSONToCBOR (convert : List Nat → List Nat)
    (json : List Nat) : Bool × List Nat :=
  let cbor_out := convert json
  (!cbor_out.isEmpty, cbor_out)

/-- C6: the JSON → CBOR boundary signals failure only through an empty output
buffer: it returns `true` exactly when the output vector is non-empty after
conversion, and on a structurally invalid input (empty conversion result, per
the spec's contract for the underlying converter) it returns `(false, [])`
with no distinguished error code. -/
theorem convertJSONToCBOR_empty_signals_failure (convert : List Nat → List Nat)
    (json : List Nat) :
    ((crdtp__json__ConvertJSONToCBOR convert json).1 = true ↔
        (crdtp__json__ConvertJSONToCBOR convert json).2 ≠ []) ∧
    (convert json = [] →
        crdtp__json__ConvertJSONToCBOR convert json = (false, [])) := by
  constructor
  · simp [crdtp__json__ConvertJSONToCBOR]
  · intro h
    simp [crdtp__json__ConvertJSONToCBOR, h]

/-- Witness for C6 with a converter that rejects (empty output) and one that
produces output. -/
theorem convertJSONToCBOR_empty_signals_failure_witness :
    crdtp__json__ConvertJSONToCBOR (fun _ => []) [123, 125] = (false, []) ∧
    ((crdtp__json__ConvertJSONToCBOR (fun _ => [255]) [123, 125]).1 = true ↔
        (crdtp__json__ConvertJSONToCBOR (fun _ => [255]) [123, 125]).2 ≠ []) :=
  ⟨(convertJSONToCBOR_empty_signals_failure (fun _ => []) [123, 125]).2 rfl,
   (convertJSONToCBOR_empty_signals_failure (fun _ => [255]) [123, 125]).1⟩

/-- The boundary function `crdtp__json__ConvertCBORToJSON` from
`crdtp_binding.cc`: the underlying `json::ConvertCBORToJSON` (V8's crdtp
library, not under src/) returns a `Status` and fills a string on success —
modelled from the spec as `convert : List Nat → Option (List Nat)` with `none`
for a non-ok status. On `none` the binding returns `false` and leaves the
caller's `json_out` untouched; on `some s` it assigns `s` and returns `true`. -/
def crdtp__json__ConvertCBORToJSON (convert : List Nat → Option (List Nat))
    (cbor : List Nat) (json_out : List Nat) : Bool × List Nat :=
  match convert cbor with
  | none => (false, json_out)
  | some json_str => (true, json_str)

/-- C7: the CBOR → JSON boundary reports success or failure through an
explicit boolean status: on failure it returns `false` with the caller's
output vector unmodified, and on success it returns `true` with the output
vector assigned the JSON text. -/
theorem convertCBORToJSON_status (convert : List Nat → Option (List Nat))
    (cbor json_out : List Nat) :
    (convert cbor = none →
        crdtp__json__ConvertCBORToJSON convert cbor json_out = (false, json_out)) ∧
    (∀ s, convert cbor = some s →
        crdtp__json__ConvertCBORToJSON convert cbor json_out = (true, s)) := by
  constructor
  · intro h
    simp [crdtp__json__ConvertCBORToJSON, h]
  · intro s h
    simp [crdtp__json__ConvertCBORToJSON, h]

/-- Witness for C7 with a failing converter and a succeeding one, starting
from a non-empty `json_out`. -/
theorem convertCBORToJSON_status_witness :
    crdtp__json__ConvertCBORToJSON (fun _ => none) [0] [9, 9] = (false, [9, 9]) ∧
    crdtp__json__ConvertCBORToJSON (fun _ => some [34, 34]) [0] [9, 9] =
      (true, [34, 34]) :=
  ⟨(convertCBORToJSON_status (fun _ => none) [0] [9, 9]).1 rfl,
   (convertCBORToJSON_status (fun _ => some [34, 34]) [0] [9, 9]).2 [34, 34] rfl⟩

end Crdtp
